import Mathlib

/-!
Verification of the tensor-parallel shard-loading logic of the Baichuan2
model file (`vllm/model_executor/models/baichuan2.py`).

Tensors are embedded at row granularity: a 2-dimensional weight tensor is a
`List` of rows.  Every slicing decision taken by the loader acts on whole
rows of the 2-dimensional view (the hidden dimension is always the final
axis), so this embedding is faithful for the sharding logic.  Rational
numbers stand in for the floating-point payloads; floating-point rounding
itself is never the subject of a claim, only which slices are moved where.
-/

/-- Python slice `t[lo:hi]` on the row dimension (clamping, like Python). -/
def sliceRows (lo hi : Nat) (t : List α) : List α :=
  ((t.drop lo).take (hi - lo))

/-- The slice of the output dimension owned by one rank: rows
`[shardSize * rank, shardSize * (rank + 1))`.  This is the slicing pattern of
both the fused-QKV branch (via head ranges) and the gate/up branch of
`load_weights`. -/
def rankShard (shardSize rank : Nat) (t : List α) : List α :=
  sliceRows (shardSize * rank) (shardSize * (rank + 1)) t

/-- `BaichuanAttention.__init__`: records the derived head bookkeeping; the
`assert self.total_num_heads % tensor_model_parallel_world_size == 0` is
modelled as returning `none` (an `AssertionError` aborts construction). -/
structure AttnShape where
  total_num_heads : Nat
  num_heads : Nat
  head_dim : Nat
deriving DecidableEq

def baichuanAttentionInit (hidden_size num_heads world_size : Nat) :
    Option AttnShape :=
  if num_heads % world_size = 0 then
    some ⟨num_heads, num_heads / world_size, hidden_size / num_heads⟩
  else
    none

/-- `MLP.__init__`: the two linear layers are recorded by their (input,
output) sizes; a `hidden_act` other than `"silu"` raises `ValueError`,
modelled as `Except.error` carrying the message built at lines 103-104. -/
structure MLPShape where
  gate_up_proj : Nat × Nat
  down_proj : Nat × Nat
deriving DecidableEq

def mlpInit (hidden_size intermediate_size : Nat) (hidden_act : String) :
    Except String MLPShape :=
  if hidden_act ≠ "silu" then
    .error ("Unsupported activation: " ++ hidden_act ++
      ". Only silu is supported for now.")
  else
    .ok ⟨(hidden_size, 2 * intermediate_size), (intermediate_size, hidden_size)⟩

/-- The fused-QKV branch of `load_weights` (lines 325-336): the loaded
tensor of shape `[3 * total_heads * head_size, hidden]` is viewed as
`[3, total_heads, head_size, hidden]`, the head dimension is sliced to
`[head_start, head_end)`, and the result is flattened back to
`[-1, hidden]`.  Because `hidden` is the final axis, the view, the slice
and the reshape act on whole rows of the 2-dimensional tensor, and the
rows kept for each of the three stacked projections form one contiguous
range; the branch is therefore the concatenation of three row slices. -/
def wPackShard (totalHeads headSize W r : Nat) (rows : List α) : List α :=
  (List.range 3).flatMap (fun g =>
    sliceRows ((g * totalHeads + r * (totalHeads / W)) * headSize)
              ((g * totalHeads + r * (totalHeads / W) + totalHeads / W) * headSize)
              rows)

/-- The gate/up branch of `load_weights` (lines 338-353) for one matching
entry with ordinal `strideId` (gate = 0, up = 1):
`shard_size = param.shape[0] // 2`; the loaded tensor is sliced to rows
`[shard_size * rank, shard_size * (rank + 1))`; the destination rows
`[shard_size * strideId, shard_size * (strideId + 1))` are overwritten with
that slice after the shape assertion at line 348; a failed assertion aborts
the load (`none`). -/
def gateUpLoad (rank strideId : Nat) (param loaded : List (List ℚ)) :
    Option (List (List ℚ)) :=
  let shard := param.length / 2
  let lw := sliceRows (shard * rank) (shard * (rank + 1)) loaded
  let pslice := sliceRows (shard * strideId) (shard * (strideId + 1)) param
  if pslice.map List.length = lw.map List.length then
    some (param.take (shard * strideId) ++
      (lw ++ param.drop (shard * strideId + lw.length)))
  else
    none

/-- The logical fused gate/up tensor of the C6 scenario
(`intermediate_size = 16`): 32 distinct single-column rows; the gate
projection is its first half, the up projection its second half. -/
def fused32 : List (List ℚ) := (List.range 32).map (fun i => [(i : ℚ)])

def gateTensor16 : List (List ℚ) := sliceRows 0 16 fused32

def upTensor16 : List (List ℚ) := sliceRows 16 32 fused32

/-- The freshly allocated per-rank `gate_up_proj` destination of the C6
scenario: `2 * intermediate_size / world_size = 16` zero rows. -/
def zeros16 : List (List ℚ) := List.replicate 16 [(0 : ℚ)]

/-- `_get_interleave_power_of_2` (lines 62-65).  For a power of two `n`,
`start = ratio = 2 ** (-(2 ** -(log2(n) - 3))) = 2 ** (-(8 / n))` and the
returned list is `[start * ratio ** i for i in range(n)]`, whose element
`i` equals `2 ** (-(8 / n) * (i + 1))`.  Every element is an exact power
of two, so a slope is represented by its exact base-2 logarithm, which is
a rational number. -/
def interleavePowerOf2 (n : Nat) : List ℚ :=
  (List.range n).map (fun (i : Nat) => -(8 / (n : ℚ)) * ((i : ℚ) + 1))

/-- Python slice `[0::2]`: every other element, starting at index 0. -/
def everyOther : List α → List α
  | [] => []
  | [a] => [a]
  | a :: _ :: rest => a :: everyOther rest

/-- `math.log2(n).is_integer()` for a positive integer argument: true
exactly when `n` is a power of two. -/
def isIntegerLog2 (n : Nat) : Bool := n == 2 ^ Nat.log2 n

/-- `_get_interleave` (lines 60-73): `closest_power_of_2 = 2 ** floor(log2 n)`
and the single recursive call is on `2 * closest_power_of_2`, which is a
power of two and therefore hits the base case; the recursion depth is at
most one, which the termination measure witnesses. -/
def getInterleave (n : Nat) : List ℚ :=
  if isIntegerLog2 n then interleavePowerOf2 n
  else
    interleavePowerOf2 (2 ^ Nat.log2 n) ++
      (everyOther (getInterleave (2 * 2 ^ Nat.log2 n))).take
        (n - 2 ^ Nat.log2 n)
termination_by (if isIntegerLog2 n then 0 else 1)
decreasing_by
  have hpow : isIntegerLog2 (2 * 2 ^ Nat.log2 n) = true := by
    have h : 2 * 2 ^ Nat.log2 n = 2 ^ (Nat.log2 n + 1) := by ring
    rw [isIntegerLog2, h, Nat.log2_two_pow]
    simp
  simp only [hpow, if_true]
  split
  · simp_all
  · omega

/-- `_get_alibi_slopes` (lines 76-78). -/
def getAlibiSlopes (total_num_heads : Nat) : List ℚ :=
  getInterleave total_num_heads

/-- The per-rank ALiBi slope slice of `BaichuanAttention.__init__`
(lines 147-152): `alibi_slopes[tp_rank * num_heads : (tp_rank + 1) *
num_heads]` with `num_heads = total_num_heads // world_size`. -/
def alibiSlopesForRank (total_num_heads W r : Nat) : List ℚ :=
  sliceRows (r * (total_num_heads / W)) ((r + 1) * (total_num_heads / W))
    (getAlibiSlopes total_num_heads)

/-- Python substring test `needle in hay` on character lists. -/
def charsContain (needle hay : List Char) : Bool :=
  (List.range (hay.length + 1)).any (fun i => needle.isPrefixOf (hay.drop i))

/-- Python `needle in hay` for strings. -/
def strContains (needle hay : String) : Bool :=
  charsContain needle.toList hay.toList

/-- Python `hay.replace(pat, rep)` on character lists: replace every
occurrence of `pat`, scanning left to right (`pat` is a nonempty literal at
every call site of this model). -/
def charsReplace (pat rep : List Char) : List Char → List Char
  | [] => []
  | c :: rest =>
    if pat ≠ [] ∧ pat.isPrefixOf (c :: rest) then
      rep ++ charsReplace pat rep ((c :: rest).drop pat.length)
    else
      c :: charsReplace pat rep rest
termination_by l => l.length
decreasing_by
  · rename_i h
    have hp : 1 ≤ pat.length := List.length_pos.mpr h.1
    simp only [List.length_drop, List.length_cons]
    omega
  · simp only [List.length_cons]
    omega

/-- Python `s.replace(pat, rep)`. -/
def strReplace (s pat rep : String) : String :=
  ⟨charsReplace pat.toList rep.toList s.toList⟩

/-- Element types relevant to the lm_head branch. -/
inductive DType
  | float16
  | float32
  | bfloat16
deriving DecidableEq

/-- Device of a loaded tensor (`loaded_weight.device` at line 361). -/
inductive Device
  | cpu
  | cuda
deriving DecidableEq

/-- A checkpoint tensor: element type, device, and 2-dimensional payload at
row granularity.  Rational payloads are exact; floating-point rounding is
not modelled. -/
structure Tensor where
  dtype : DType
  device : Device
  data : List (List ℚ)
deriving DecidableEq

/-- `tensor.float()`: cast to float32 (only the element type changes in
this model, the rational payload is exact). -/
def castFloat (t : Tensor) : Tensor := { t with dtype := DType.float32 }

/-- `tensor.half()`: cast to float16. -/
def castHalf (t : Tensor) : Tensor := { t with dtype := DType.float16 }

/-- Lines 361-364, the lm_head normalization step.  The floating-point
function `torch.nn.functional.normalize` itself is the abstract parameter
`normalize` (its numerics live outside the rational payload model); the
branch structure is the code: route through float32 and cast back exactly
when the loaded tensor is float16 AND resides on the cpu device, otherwise
call `normalize` directly on the tensor at its source precision. -/
def lmHeadStep (normalize : Tensor → Tensor) (t : Tensor) : Tensor :=
  if t.dtype = DType.float16 ∧ t.device = Device.cpu then
    castHalf (normalize (castFloat t))
  else
    normalize t

/-- The argument signature with which `torch.nn.functional.normalize` is
invoked at lines 362 and 364: no explicit arguments, so the documented
defaults apply: `p = 2` (L2 norm), `dim = 1` (each row of the
2-dimensional tensor is normalized along its width), and the denominator
is `max(norm, eps)` with `eps = 1e-12`, clamped away from exact zero. -/
structure NormalizeCall where
  p : ℚ
  dim : Nat
  eps : ℚ
deriving DecidableEq

def fNormalizeDefaults : NormalizeCall := ⟨2, 1, 1 / 1000000000000⟩

/-- `self.state_dict()`: a name-to-tensor mapping, as an association
list. -/
abbrev Store := List (String × Tensor)

def lookupStore (sd : Store) (n : String) : Option Tensor :=
  (sd.find? (fun q => q.1 == n)).map (fun q => q.2)

def updateStore (sd : Store) (n : String) (t : Tensor) : Store :=
  sd.map (fun q => if q.1 == n then (q.1, t) else q)

/-- The configuration fields `load_weights` reads (lines 326-327). -/
structure Config where
  num_attention_heads : Nat
  hidden_size : Nat

/-- One (name, tensor) pair yielded by `hf_model_weights_iterator`. -/
structure Entry where
  name : String
  tensor : Tensor

/-- The errors the load can abort with.  `missingNormHead` is the failed
`assert has_norm_head` at line 383; `keyError` a missing `state_dict` key;
`shapeMismatch` any failed tensor shape assertion. -/
inductive LoadErr
  | keyError (name : String)
  | shapeMismatch (name : String)
  | missingNormHead
deriving DecidableEq

/-- `_column_parallel_weights = []` (line 305). -/
def columnParallelWeights : List String := []

/-- `_row_parallel_weights = ["o_proj.weight", "down_proj.weight"]`
(line 306). -/
def rowParallelWeights : List String := ["o_proj.weight", "down_proj.weight"]

/-- Modelled from the spec: `load_padded_tensor_parallel_vocab` is imported
from `vllm.model_executor.weight_utils`, which is not part of this excerpt.
Spec rule 5: the destination vocabulary dimension is padded, per-rank slice
boundaries are computed from the padded size divided by world_size (i.e.
the per-rank destination row count); only the valid rows (those that exist
in the checkpoint tensor) are written, and padding rows keep their
pre-existing value. -/
def load_padded_tensor_parallel_vocab (param loaded : List (List ℚ))
    (rank : Nat) : List (List ℚ) :=
  let shard := param.length
  let start := shard * rank
  let valid := sliceRows start (min (start + shard) loaded.length) loaded
  valid ++ param.drop valid.length

/-- Modelled from the spec: `load_tensor_parallel_weights` is imported from
`vllm.model_executor.weight_utils`, which is not part of this excerpt.
Spec rule 6: a name matching a column-parallel pattern is sliced along the
output dimension, a name matching a row-parallel pattern along the input
dimension, anything else is replicated; the sliced tensor must equal the
destination shape exactly, otherwise the load aborts. -/
def load_tensor_parallel_weights (param loaded : List (List ℚ))
    (name : String) (columnNames rowNames : List String) (rank : Nat) :
    Option (List (List ℚ)) :=
  let sliced :=
    if columnNames.any (fun q => strContains q name) then
      sliceRows (param.length * rank) (param.length * (rank + 1)) loaded
    else if rowNames.any (fun q => strContains q name) then
      loaded.map (fun row =>
        (row.drop ((param.headD []).length * rank)).take
          (param.headD []).length)
    else loaded
  if sliced.map List.length = param.map List.length then some sliced else none

/-- The body of the gate/up branch (lines 342-349) once a gate or up entry
has matched: look up the fused destination under the rewritten name and
copy the rank-owned slice into the ordinal-owned destination rows. -/
def gateUpStore (sd : Store) (r strideId : Nat) (key : String) (lw : Tensor)
    (flag : Bool) : Except LoadErr (Store × Bool) :=
  match lookupStore sd key with
  | none => .error (.keyError key)
  | some param =>
    match gateUpLoad r strideId param.data lw.data with
    | none => .error (.shapeMismatch key)
    | some newData =>
      .ok (updateStore sd key { param with data := newData }, flag)

/-- One iteration of the `load_weights` loop (lines 318-382) on entry `e`,
over the state (parameter store, `has_norm_head` accumulator).
`convert_pyslice_to_tensor` is the identity on an already-materialized
tensor.  Any failed torch-side shape check aborts the load; the model
reports each such abort as an error (the precise python exception class is
immaterial to the claims). -/
def loadEntry (cfg : Config) (W r : Nat) (normalize : Tensor → Tensor)
    (st : Store × Bool) (e : Entry) : Except LoadErr (Store × Bool) :=
  if strContains "rotary_emb.inv_freq" e.name then .ok st
  else
    let lw :=
      if strContains "W_pack" e.name then
        { e.tensor with
          data := wPackShard cfg.num_attention_heads
            (cfg.hidden_size / cfg.num_attention_heads) W r e.tensor.data }
      else e.tensor
    if strContains "gate_proj" e.name then
      gateUpStore st.1 r 0 (strReplace e.name "gate_proj" "gate_up_proj") lw
        st.2
    else if strContains "up_proj" e.name then
      gateUpStore st.1 r 1 (strReplace e.name "up_proj" "gate_up_proj") lw
        st.2
    else
      match lookupStore st.1 e.name with
      | none => .error (.keyError e.name)
      | some param =>
        let lw2 :=
          if e.name = "lm_head.weight" then lmHeadStep normalize lw else lw
        let flag2 := st.2 || (e.name == "lm_head.weight")
        if strContains "embed_tokens" e.name || strContains "lm_head" e.name
        then
          .ok (updateStore st.1 e.name
            { param with
              data := load_padded_tensor_parallel_vocab param.data lw2.data
                r }, flag2)
        else
          match load_tensor_parallel_weights param.data lw2.data e.name
              columnParallelWeights rowParallelWeights r with
          | none => .error (.shapeMismatch e.name)
          | some newData =>
            .ok (updateStore st.1 e.name { param with data := newData },
              flag2)

/-- The `for name, loaded_weight in ...` loop of `load_weights`, threading
the (store, `has_norm_head`) state through the stream in order. -/
def processEntries (cfg : Config) (W r : Nat) (normalize : Tensor → Tensor)
    (st : Store × Bool) : List Entry → Except LoadErr (Store × Bool)
  | [] => .ok st
  | e :: rest =>
    match loadEntry cfg W r normalize st e with
    | .error err => .error err
    | .ok st2 => processEntries cfg W r normalize st2 rest

/-- `load_weights` (lines 308-383): fold the per-entry step over the
checkpoint stream starting from `has_norm_head = False`; at end of stream
the `assert has_norm_head` at line 383 turns a still-unset flag into the
missing-mandatory-step error. -/
def load_weights (cfg : Config) (W r : Nat) (normalize : Tensor → Tensor)
    (sd : Store) (stream : List Entry) : Except LoadErr Store :=
  match processEntries cfg W r normalize (sd, false) stream with
  | .error err => .error err
  | .ok (sd2, flag) => if flag then .ok sd2 else .error .missingNormHead

/-- A probe for the normalization parameter: it records in its output
whether its argument arrived in float32. -/
def probeNormalize : Tensor → Tensor :=
  fun t => { t with data := [[if t.dtype = DType.float32 then 1 else 0]] }

theorem sliceRows_length (lo hi : Nat) (t : List α) (h : hi ≤ t.length) (hlo : lo ≤ hi) :
    (sliceRows lo hi t).length = hi - lo := by
  simp [sliceRows]
  omega

theorem sliceRows_getElem? (lo hi : Nat) (t : List α) (i : Nat) (h : i < hi - lo) :
    (sliceRows lo hi t)[i]? = t[lo + i]? := by
  simp [sliceRows, List.getElem?_take, h, List.getElem?_drop]

theorem rankShard_concat (W s : Nat) (t : List α) :
    ((List.range W).flatMap (fun r => rankShard s r t)) = t.take (W * s) := by
  induction W with
  | zero => simp
  | succ n ih =>
    rw [List.range_succ, List.flatMap_append, ih]
    simp only [List.flatMap_cons, List.flatMap_nil, List.append_nil]
    rw [rankShard, sliceRows, Nat.mul_succ, Nat.mul_comm s n]
    rw [show n * s + s - n * s = s from by omega]
    rw [Nat.succ_mul, ← List.take_add]

/-- C7: for every `world_size >= 1` dividing the output size `D`, the
per-rank slices `[shard_size * rank, shard_size * (rank + 1))` for ranks
`0..world_size-1` partition `[0, D)` exactly: each shard has `D / world_size`
rows and concatenating the shards in rank order reproduces the original
tensor with no overlap and no gap. -/
theorem column_shard_partition (W D : Nat) (t : List α)
    (hW : 1 ≤ W) (hdvd : W ∣ D) (ht : t.length = D) :
    (∀ r, r < W → (rankShard (D / W) r t).length = D / W) ∧
    ((List.range W).flatMap (fun r => rankShard (D / W) r t)) = t := by
  obtain ⟨k, hk⟩ := hdvd
  have hs : D / W = k := by
    subst hk; exact Nat.mul_div_cancel_left k (by omega)
  constructor
  · intro r hr
    have h1 : k * (r + 1) ≤ t.length := by
      rw [ht, hk, Nat.mul_comm W k]
      exact Nat.mul_le_mul_left k (by omega)
    rw [rankShard, hs, sliceRows_length _ _ _ h1 (Nat.mul_le_mul_left k (by omega))]
    rw [Nat.mul_succ]
    omega
  · rw [rankShard_concat, hs, ← hk, ← ht, List.take_length]

/-- Closed witness for `column_shard_partition` at `W = 4`, `D = 8`. -/
theorem column_shard_partition_witness :
    (1 ≤ 4 ∧ 4 ∣ 8 ∧ (List.range 8).length = 8) ∧
    ((∀ r, r < 4 → (rankShard (8 / 4) r (List.range 8)).length = 8 / 4) ∧
      ((List.range 4).flatMap (fun r => rankShard (8 / 4) r (List.range 8))) =
        List.range 8) :=
  ⟨⟨by decide, by decide, by simp⟩,
    column_shard_partition 4 8 (List.range 8) (by decide) (by decide) (by simp)⟩

/-- C4: if the total attention head count is not evenly divisible by the
world size, `BaichuanAttention.__init__` aborts (the assertion at line 128
fails); it never proceeds with a floored per-rank head count.  When the
count is divisible, construction succeeds with `num_heads = total / W`. -/
theorem attention_divisibility_guard (hidden_size num_heads world_size : Nat) :
    (num_heads % world_size ≠ 0 →
      baichuanAttentionInit hidden_size num_heads world_size = none) ∧
    (num_heads % world_size = 0 →
      baichuanAttentionInit hidden_size num_heads world_size =
        some ⟨num_heads, num_heads / world_size, hidden_size / num_heads⟩) := by
  constructor
  · intro h
    simp [baichuanAttentionInit, h]
  · intro h
    simp [baichuanAttentionInit, h]

/-- Closed witness for `attention_divisibility_guard`: 3 heads on 2 ranks
abort, 4 heads on 2 ranks succeed. -/
theorem attention_divisibility_guard_witness :
    (3 % 2 ≠ 0 ∧ baichuanAttentionInit 32 3 2 = none) ∧
    (4 % 2 = 0 ∧ baichuanAttentionInit 32 4 2 = some ⟨4, 2, 8⟩) :=
  ⟨⟨by decide, (attention_divisibility_guard 32 3 2).1 (by decide)⟩,
    ⟨by decide, (attention_divisibility_guard 32 4 2).2 (by decide)⟩⟩

/-- C10: constructing the MLP block with an activation name other than
`"silu"` raises `ValueError`; with `"silu"` it succeeds — the check runs in
`MLP.__init__`, i.e. at construction time. -/
theorem mlp_activation_guard (hidden_size intermediate_size : Nat)
    (hidden_act : String) :
    (hidden_act ≠ "silu" →
      mlpInit hidden_size intermediate_size hidden_act =
        .error ("Unsupported activation: " ++ hidden_act ++
          ". Only silu is supported for now.")) ∧
    (mlpInit hidden_size intermediate_size "silu" =
      .ok ⟨(hidden_size, 2 * intermediate_size),
           (intermediate_size, hidden_size)⟩) := by
  constructor
  · intro h
    simp [mlpInit, h]
  · simp [mlpInit]

theorem slice_block_getElem? (a k d : Nat) (t : List α) (l j : Nat)
    (hl : l < k) (hj : j < d) :
    (sliceRows (a * d) ((a + k) * d) t)[l * d + j]? = t[(a + l) * d + j]? := by
  have hidx : l * d + j < (a + k) * d - a * d := by
    have h1 : l * d + j < (l + 1) * d := by rw [Nat.succ_mul]; omega
    have h2 : (l + 1) * d ≤ k * d := Nat.mul_le_mul_right d hl
    have h3 : (a + k) * d = a * d + k * d := Nat.add_mul a k d
    omega
  rw [sliceRows_getElem? _ _ _ _ hidx]
  congr 1
  ring

theorem slice_block_length (a k d : Nat) (t : List α)
    (hhi : (a + k) * d ≤ t.length) :
    (sliceRows (a * d) ((a + k) * d) t).length = k * d := by
  rw [sliceRows_length _ _ _ hhi (Nat.mul_le_mul_right d (by omega))]
  rw [Nat.add_mul]
  omega

/-- C1: the fused-QKV branch keeps, for each of the three stacked
projections `g`, exactly the rows of heads `[r * local, (r + 1) * local)`
where `local = total_heads / world_size`, producing a tensor of
`3 * local * head_dim` rows; concretely for `world_size = 2`,
`total_heads = 4`, `head_dim = 8` (96 input rows), rank 0 receives heads
`[0, 2)` as 48 rows, rank 1 receives heads `[2, 4)`, and the two outputs
are disjoint in content. -/
theorem wpack_shard_spec (H d W r : Nat) (t : List α)
    (hW : 1 ≤ W) (hdvd : W ∣ H) (hr : r < W) (ht : t.length = 3 * H * d) :
    ((wPackShard H d W r t).length = 3 * (H / W) * d ∧
      (∀ g l j, g < 3 → l < H / W → j < d →
        (wPackShard H d W r t)[(g * (H / W) + l) * d + j]? =
          t[(g * H + r * (H / W) + l) * d + j]?)) ∧
    ((wPackShard 4 8 2 0 (List.range 96) =
        sliceRows 0 16 (List.range 96) ++ sliceRows 32 48 (List.range 96) ++
          sliceRows 64 80 (List.range 96) ∧
      wPackShard 4 8 2 1 (List.range 96) =
        sliceRows 16 32 (List.range 96) ++ sliceRows 48 64 (List.range 96) ++
          sliceRows 80 96 (List.range 96)) ∧
      (wPackShard 4 8 2 0 (List.range 96)).length = 48 ∧
      ∀ a ∈ wPackShard 4 8 2 0 (List.range 96),
        a ∉ wPackShard 4 8 2 1 (List.range 96)) := by
  obtain ⟨k, hk⟩ := hdvd
  have hL : H / W = k := by
    subst hk; exact Nat.mul_div_cancel_left k (by omega)
  have hrk : r * k + k ≤ H := by
    have h1 : (r + 1) * k ≤ W * k := Nat.mul_le_mul_right k (by omega)
    rw [Nat.succ_mul] at h1
    omega
  have hunf : wPackShard H d W r t =
      sliceRows ((0 * H + r * k) * d) ((0 * H + r * k + k) * d) t ++
        (sliceRows ((1 * H + r * k) * d) ((1 * H + r * k + k) * d) t ++
          (sliceRows ((2 * H + r * k) * d) ((2 * H + r * k + k) * d) t ++ [])) := by
    rw [wPackShard, show List.range 3 = [0, 1, 2] from rfl]
    simp only [List.flatMap_cons, List.flatMap_nil, hL]
  have hlen : ∀ g, g < 3 →
      (sliceRows ((g * H + r * k) * d) ((g * H + r * k + k) * d) t).length
        = k * d := by
    intro g hg
    apply slice_block_length
    rw [ht]
    have : g * H + r * k + k ≤ 3 * H := by
      have h2 : g * H + H ≤ 3 * H := by
        have := Nat.mul_le_mul_right H (show g + 1 ≤ 3 by omega)
        rw [Nat.add_mul] at this
        omega
      omega
    exact Nat.mul_le_mul_right d this
  refine ⟨⟨?_, ?_⟩, ⟨by decide, by decide⟩, by decide, by decide⟩
  · rw [hunf, hL]
    simp only [List.length_append, List.length_nil]
    rw [hlen 0 (by omega), hlen 1 (by omega), hlen 2 (by omega)]
    ring
  · intro g l j hg hl hj
    rw [hL] at hl ⊢
    rw [hunf]
    have hb : l * d + j < k * d := by
      have h1 : l * d + j < (l + 1) * d := by rw [Nat.succ_mul]; omega
      have h2 : (l + 1) * d ≤ k * d := Nat.mul_le_mul_right d hl
      omega
    interval_cases g
    · rw [show (0 * k + l) * d + j = l * d + j from by ring]
      rw [List.getElem?_append_left (by rw [hlen 0 (by omega)]; exact hb)]
      exact slice_block_getElem? (0 * H + r * k) k d t l j hl hj
    · rw [show (1 * k + l) * d + j = k * d + (l * d + j) from by ring]
      rw [List.getElem?_append_right (by rw [hlen 0 (by omega)]; omega)]
      rw [hlen 0 (by omega), Nat.add_sub_cancel_left]
      rw [List.getElem?_append_left (by rw [hlen 1 (by omega)]; exact hb)]
      exact slice_block_getElem? (1 * H + r * k) k d t l j hl hj
    · rw [show (2 * k + l) * d + j = k * d + (k * d + (l * d + j)) from by ring]
      rw [List.getElem?_append_right (by rw [hlen 0 (by omega)]; omega)]
      rw [hlen 0 (by omega), Nat.add_sub_cancel_left]
      rw [List.getElem?_append_right (by rw [hlen 1 (by omega)]; omega)]
      rw [hlen 1 (by omega), Nat.add_sub_cancel_left]
      rw [List.getElem?_append_left (by rw [hlen 2 (by omega)]; exact hb)]
      exact slice_block_getElem? (2 * H + r * k) k d t l j hl hj

/-- Closed witness for `wpack_shard_spec` at the end-to-end scenario
`world_size = 2`, `total_heads = 4`, `head_dim = 8`, 96 input rows. -/
theorem wpack_shard_spec_witness :
    (1 ≤ 2 ∧ 2 ∣ 4 ∧ 0 < 2 ∧ (List.range 96).length = 3 * 4 * 8) ∧
    (((wPackShard 4 8 2 0 (List.range 96)).length = 3 * (4 / 2) * 8 ∧
      (∀ g l j, g < 3 → l < 4 / 2 → j < 8 →
        (wPackShard 4 8 2 0 (List.range 96))[(g * (4 / 2) + l) * 8 + j]? =
          (List.range 96)[(g * 4 + 0 * (4 / 2) + l) * 8 + j]?)) ∧
    ((wPackShard 4 8 2 0 (List.range 96) =
        sliceRows 0 16 (List.range 96) ++ sliceRows 32 48 (List.range 96) ++
          sliceRows 64 80 (List.range 96) ∧
      wPackShard 4 8 2 1 (List.range 96) =
        sliceRows 16 32 (List.range 96) ++ sliceRows 48 64 (List.range 96) ++
          sliceRows 80 96 (List.range 96)) ∧
      (wPackShard 4 8 2 0 (List.range 96)).length = 48 ∧
      ∀ a ∈ wPackShard 4 8 2 0 (List.range 96),
        a ∉ wPackShard 4 8 2 1 (List.range 96))) :=
  ⟨⟨by decide, by decide, by decide, by simp⟩,
    wpack_shard_spec 4 8 2 0 (List.range 96) (by decide) (by decide) (by decide)
      (by simp)⟩

/-- If every row of a 2-dimensional tensor has width `hid`, the list of row
widths is a constant list. -/
theorem map_length_eq_replicate (t : List (List ℚ)) (hid : Nat)
    (h : ∀ row ∈ t, row.length = hid) :
    t.map List.length = List.replicate t.length hid := by
  induction t with
  | nil => rfl
  | cons x xs ih =>
    simp only [List.map_cons, List.length_cons, List.replicate_succ]
    rw [h x (by simp), ih (fun row hrow => h row (by simp [hrow]))]

theorem mem_of_mem_sliceRows (lo hi : Nat) (t : List α) (x : α)
    (h : x ∈ sliceRows lo hi t) : x ∈ t :=
  List.mem_of_mem_drop (List.mem_of_mem_take h)

/-- C2: for a gate (ordinal 0) or up (ordinal 1) entry of the fused gate/up
destination, the loader takes the loaded rows
`[shard_size * rank, shard_size * (rank + 1))` and copies them to the
destination rows `[shard_size * ordinal, shard_size * (ordinal + 1))`,
where `shard_size = destination_output_dim / 2 / world_size` (the full
fused output dimension is `2 * intermediate_size`, of which the
pre-allocated per-rank destination holds `2 * intermediate_size / W` rows);
rows outside the destination sub-range are untouched, and a shape mismatch
between the copied region and the destination sub-range aborts the load. -/
theorem gate_up_load_spec (I W r o hid : Nat) (param loaded : List (List ℚ))
    (hW : 1 ≤ W) (hr : r < W) (ho : o < 2) (hdvd : W ∣ I)
    (hparam : param.length = 2 * I / W) (hloaded : loaded.length = I)
    (hprect : ∀ row ∈ param, row.length = hid)
    (hlrect : ∀ row ∈ loaded, row.length = hid) :
    (param.length / 2 = 2 * I / 2 / W) ∧
    (∃ res, gateUpLoad r o param loaded = some res ∧
      res.length = param.length ∧
      sliceRows (2 * I / 2 / W * o) (2 * I / 2 / W * (o + 1)) res =
        sliceRows (2 * I / 2 / W * r) (2 * I / 2 / W * (r + 1)) loaded ∧
      res.take (2 * I / 2 / W * o) = param.take (2 * I / 2 / W * o) ∧
      res.drop (2 * I / 2 / W * (o + 1)) =
        param.drop (2 * I / 2 / W * (o + 1))) ∧
    (∀ p l : List (List ℚ),
      (sliceRows (p.length / 2 * o) (p.length / 2 * (o + 1)) p).map
          List.length ≠
        (sliceRows (p.length / 2 * r) (p.length / 2 * (r + 1)) l).map
          List.length →
      gateUpLoad r o p l = none) := by
  obtain ⟨k, hkI⟩ := hdvd
  have hs : 2 * I / 2 / W = k := by
    rw [Nat.mul_div_cancel_left I (by omega), hkI,
      Nat.mul_div_cancel_left k (by omega)]
  have hpl : param.length = 2 * k := by
    rw [hparam, hkI, show 2 * (W * k) = W * (2 * k) from by ring,
      Nat.mul_div_cancel_left _ (by omega)]
  have hshard : param.length / 2 = k := by rw [hpl]; omega
  have hko : k * (o + 1) ≤ 2 * k := by
    have := Nat.mul_le_mul_left k (show o + 1 ≤ 2 by omega)
    omega
  have hko' : k * o ≤ k := by
    have := Nat.mul_le_mul_left k (show o ≤ 1 by omega)
    omega
  have hkr : k * (r + 1) ≤ I := by
    have h1 : k * (r + 1) ≤ k * W := Nat.mul_le_mul_left k (by omega)
    rw [hkI, Nat.mul_comm W k]
    exact h1
  have hmulsucc : ∀ m : Nat, k * (m + 1) - k * m = k := by
    intro m; rw [Nat.mul_succ]; omega
  have hps : (sliceRows (k * o) (k * (o + 1)) param).length = k := by
    rw [sliceRows_length _ _ _ (by omega) (Nat.mul_le_mul_left k (by omega)),
      hmulsucc]
  have hls : (sliceRows (k * r) (k * (r + 1)) loaded).length = k := by
    rw [sliceRows_length _ _ _ (by omega) (Nat.mul_le_mul_left k (by omega)),
      hmulsucc]
  have hcond : (sliceRows (k * o) (k * (o + 1)) param).map List.length =
      (sliceRows (k * r) (k * (r + 1)) loaded).map List.length := by
    rw [map_length_eq_replicate _ hid
        (fun row hrow => hprect row (mem_of_mem_sliceRows _ _ _ _ hrow)),
      map_length_eq_replicate _ hid
        (fun row hrow => hlrect row (mem_of_mem_sliceRows _ _ _ _ hrow)),
      hps, hls]
  refine ⟨by rw [hshard, hs], ?_, ?_⟩
  · rw [hs]
    refine ⟨param.take (k * o) ++
      (sliceRows (k * r) (k * (r + 1)) loaded ++
        param.drop (k * o + (sliceRows (k * r) (k * (r + 1)) loaded).length)),
      ?_, ?_, ?_, ?_, ?_⟩
    · simp only [gateUpLoad, hshard]
      rw [if_pos hcond]
    · have htl : (param.take (k * o)).length = k * o := by
        rw [List.length_take, Nat.min_eq_left (by omega)]
      simp only [List.length_append, htl, hls, List.length_drop, hpl]
      omega
    · have htl : (param.take (k * o)).length = k * o := by
        rw [List.length_take, Nat.min_eq_left (by omega)]
      rw [sliceRows, List.drop_left' htl, hmulsucc, List.take_left' hls]
    · have htl : (param.take (k * o)).length = k * o := by
        rw [List.length_take, Nat.min_eq_left (by omega)]
      rw [List.take_append_of_le_length (by rw [htl]), List.take_take,
        Nat.min_self]
    · have htl : (param.take (k * o)).length = k * o := by
        rw [List.length_take, Nat.min_eq_left (by omega)]
      rw [← List.append_assoc, hls, Nat.mul_succ,
        List.drop_left' (by rw [List.length_append, htl, hls])]
  · intro p l hne
    simp only [gateUpLoad]
    rw [if_neg hne]

/-- Closed witness for `gate_up_load_spec` at `intermediate_size = 2`,
`world_size = 2`, rank 1, ordinal 1 (an up-projection entry). -/
theorem gate_up_load_spec_witness :
    (1 ≤ 2 ∧ 1 < 2 ∧ 1 < 2 ∧ 2 ∣ 2 ∧
      ([[(5 : ℚ)], [6]] : List (List ℚ)).length = 2 * 2 / 2 ∧
      ([[(7 : ℚ)], [8]] : List (List ℚ)).length = 2) ∧
    ((([[(5 : ℚ)], [6]] : List (List ℚ)).length / 2 = 2 * 2 / 2 / 2) ∧
      (∃ res, gateUpLoad 1 1 [[(5 : ℚ)], [6]] [[(7 : ℚ)], [8]] = some res ∧
        res.length = ([[(5 : ℚ)], [6]] : List (List ℚ)).length ∧
        sliceRows (2 * 2 / 2 / 2 * 1) (2 * 2 / 2 / 2 * (1 + 1)) res =
          sliceRows (2 * 2 / 2 / 2 * 1) (2 * 2 / 2 / 2 * (1 + 1))
            [[(7 : ℚ)], [8]] ∧
        res.take (2 * 2 / 2 / 2 * 1) =
          ([[(5 : ℚ)], [6]] : List (List ℚ)).take (2 * 2 / 2 / 2 * 1) ∧
        res.drop (2 * 2 / 2 / 2 * (1 + 1)) =
          ([[(5 : ℚ)], [6]] : List (List ℚ)).drop (2 * 2 / 2 / 2 * (1 + 1))) ∧
      (∀ p l : List (List ℚ),
        (sliceRows (p.length / 2 * 1) (p.length / 2 * (1 + 1)) p).map
            List.length ≠
          (sliceRows (p.length / 2 * 1) (p.length / 2 * (1 + 1)) l).map
            List.length →
        gateUpLoad 1 1 p l = none)) :=
  ⟨⟨by decide, by decide, by decide, by decide, by decide, by decide⟩,
    gate_up_load_spec 2 2 1 1 1 [[(5 : ℚ)], [6]] [[(7 : ℚ)], [8]]
      (by decide) (by decide) (by decide) (by decide) (by decide) (by decide)
      (by decide) (by decide)⟩

/-- C6: with `intermediate_size = 16` and `world_size = 2` the fused
destination has `2 * 16 = 32` rows in total; loading the gate entry
(ordinal 0) and the up entry (ordinal 1) leaves rank 0 holding rows
`[0, 8) ++ [16, 24)` of the fused tensor and rank 1 holding rows
`[8, 16) ++ [24, 32)`: rank 0's gate half occupies fused rows `[0, 8)`,
rank 1's gate half `[8, 16)`, rank 0's up half `[16, 24)`, and rank 1's up
half `[24, 32)`. -/
theorem gate_up_scenario_rows :
    fused32.length = 32 ∧ gateTensor16.length = 16 ∧ zeros16.length = 16 ∧
    (gateUpLoad 0 0 zeros16 gateTensor16).bind
        (fun p => gateUpLoad 0 1 p upTensor16) =
      some (sliceRows 0 8 fused32 ++ sliceRows 16 24 fused32) ∧
    (gateUpLoad 1 0 zeros16 gateTensor16).bind
        (fun p => gateUpLoad 1 1 p upTensor16) =
      some (sliceRows 8 16 fused32 ++ sliceRows 24 32 fused32) := by
  refine ⟨by decide, by decide, by decide, by decide, by decide⟩

theorem isIntegerLog2_double_pow (n : Nat) :
    isIntegerLog2 (2 * 2 ^ Nat.log2 n) = true := by
  have h : 2 * 2 ^ Nat.log2 n = 2 ^ (Nat.log2 n + 1) := by ring
  rw [isIntegerLog2, h, Nat.log2_two_pow]
  simp

theorem interleavePowerOf2_length (n : Nat) :
    (interleavePowerOf2 n).length = n := by
  rw [interleavePowerOf2, List.length_map, List.length_range]

theorem everyOther_length : ∀ (l : List α),
    (everyOther l).length = (l.length + 1) / 2
  | [] => by simp [everyOther]
  | [_] => by simp [everyOther]
  | _ :: _ :: rest => by
    rw [everyOther, List.length_cons, everyOther_length rest,
      List.length_cons, List.length_cons]
    omega

theorem getInterleave_length (n : Nat) (hn : 1 ≤ n) :
    (getInterleave n).length = n := by
  rw [getInterleave]
  split
  · exact interleavePowerOf2_length n
  · have hc1 : 2 ^ Nat.log2 n ≤ n := Nat.log2_self_le (by omega)
    have hc2 : n < 2 * 2 ^ Nat.log2 n := by
      have h := Nat.lt_log2_self (n := n)
      rw [Nat.pow_succ] at h
      omega
    have hrec : getInterleave (2 * 2 ^ Nat.log2 n) =
        interleavePowerOf2 (2 * 2 ^ Nat.log2 n) := by
      rw [getInterleave, if_pos (isIntegerLog2_double_pow n)]
    rw [hrec]
    simp only [List.length_append, List.length_take, everyOther_length,
      interleavePowerOf2_length]
    omega

/-- C9: `_get_interleave` is total on every `n >= 1` (its definition above
is accepted with a recursion-depth-one termination measure) and returns
exactly `n` slopes; consequently `_get_alibi_slopes(total)` has length
`total`, and for every rank `r < world_size` the slice
`[r * num_heads, (r + 1) * num_heads)` with `num_heads = total // W` is in
bounds and has exactly `num_heads` elements. -/
theorem interleave_length_spec (n W r : Nat) (hn : 1 ≤ n) (hr : r < W) :
    (getInterleave n).length = n ∧
    (getAlibiSlopes n).length = n ∧
    (r + 1) * (n / W) ≤ n ∧
    (alibiSlopesForRank n W r).length = n / W := by
  have hq : W * (n / W) ≤ n := Nat.mul_div_le n W
  have hb : (r + 1) * (n / W) ≤ n := by
    have h1 : (r + 1) * (n / W) ≤ W * (n / W) :=
      Nat.mul_le_mul_right (n / W) (by omega)
    omega
  refine ⟨getInterleave_length n hn, getInterleave_length n hn, hb, ?_⟩
  rw [alibiSlopesForRank, sliceRows_length]
  · rw [show (r + 1) * (n / W) = r * (n / W) + n / W from by ring,
      Nat.add_sub_cancel_left]
  · rw [getAlibiSlopes, getInterleave_length n hn]
    exact hb
  · exact Nat.mul_le_mul_right (n / W) (by omega)

/-- Closed witness for `interleave_length_spec` at `n = 12` (not a power
of two, so the recursive branch is exercised), `world_size = 4`,
`rank = 3`. -/
theorem interleave_length_spec_witness :
    (1 ≤ 12 ∧ 3 < 4) ∧
    ((getInterleave 12).length = 12 ∧
      (getAlibiSlopes 12).length = 12 ∧
      (3 + 1) * (12 / 4) ≤ 12 ∧
      (alibiSlopesForRank 12 4 3).length = 12 / 4) :=
  ⟨⟨by decide, by decide⟩, interleave_length_spec 12 4 3 (by decide) (by decide)⟩

theorem gateUpStore_flag (sd : Store) (r o : Nat) (key : String) (lw : Tensor)
    (flag : Bool) (st2 : Store × Bool)
    (h : gateUpStore sd r o key lw flag = .ok st2) : st2.2 = flag := by
  simp only [gateUpStore] at h
  cases hl : lookupStore sd key with
  | none => rw [hl] at h; simp at h
  | some param =>
    rw [hl] at h
    dsimp only at h
    cases hg : gateUpLoad r o param.data lw.data with
    | none => rw [hg] at h; simp at h
    | some nd =>
      rw [hg] at h
      dsimp only at h
      simp only [Except.ok.injEq] at h
      rw [← h]

theorem loadEntry_flag (cfg : Config) (W r : Nat)
    (normalize : Tensor → Tensor) (st st2 : Store × Bool) (e : Entry)
    (h : loadEntry cfg W r normalize st e = .ok st2) :
    st2.2 = (st.2 || (e.name == "lm_head.weight")) := by
  by_cases hname : e.name = "lm_head.weight"
  · rw [hname]
    simp only [loadEntry, hname,
      show strContains "rotary_emb.inv_freq" "lm_head.weight" = false from by
        decide,
      show strContains "W_pack" "lm_head.weight" = false from by decide,
      show strContains "gate_proj" "lm_head.weight" = false from by decide,
      show strContains "up_proj" "lm_head.weight" = false from by decide,
      show strContains "embed_tokens" "lm_head.weight" = false from by decide,
      show strContains "lm_head" "lm_head.weight" = true from by decide,
      Bool.false_eq_true, if_false, if_true, Bool.or_true, if_pos rfl,
      Bool.false_or, Bool.or_self] at h
    simp only [beq_self_eq_true, Bool.or_true]
    cases hl : lookupStore st.1 "lm_head.weight" with
    | none => rw [hl] at h; simp at h
    | some param =>
      rw [hl] at h
      dsimp only at h
      simp only [Except.ok.injEq] at h
      rw [← h]
      simp
  · have hbeq : (e.name == "lm_head.weight") = false := by
      simpa using hname
    rw [hbeq, Bool.or_false]
    by_cases h1 : strContains "rotary_emb.inv_freq" e.name = true
    · simp only [loadEntry, h1, if_true] at h
      simp only [Except.ok.injEq] at h
      rw [← h]
    · by_cases h2 : strContains "gate_proj" e.name = true
      · simp only [loadEntry, h1, h2, Bool.false_eq_true, if_false,
          if_true] at h
        exact gateUpStore_flag _ _ _ _ _ _ _ h
      · by_cases h3 : strContains "up_proj" e.name = true
        · simp only [loadEntry, h1, h2, h3, Bool.false_eq_true, if_false,
            if_true] at h
          exact gateUpStore_flag _ _ _ _ _ _ _ h
        · simp only [loadEntry, h1, h2, h3, Bool.false_eq_true, if_false,
            hname, ite_false, hbeq, Bool.or_false] at h
          cases hl : lookupStore st.1 e.name with
          | none => rw [hl] at h; simp at h
          | some param =>
            rw [hl] at h
            dsimp only at h
            by_cases h4 : (strContains "embed_tokens" e.name ||
                strContains "lm_head" e.name) = true
            · simp only [h4, if_true, Except.ok.injEq] at h
              rw [← h]
            · simp only [h4, Bool.false_eq_true, if_false] at h
              cases hltw : load_tensor_parallel_weights param.data
                  (if strContains "W_pack" e.name = true then
                    { e.tensor with
                      data := wPackShard cfg.num_attention_heads
                        (cfg.hidden_size / cfg.num_attention_heads) W r
                        e.tensor.data }
                  else e.tensor).data e.name columnParallelWeights
                  rowParallelWeights r with
              | none => rw [hltw] at h; simp at h
              | some nd =>
                rw [hltw] at h
                dsimp only at h
                simp only [Except.ok.injEq] at h
                rw [← h]

theorem processEntries_flag (cfg : Config) (W r : Nat)
    (normalize : Tensor → Tensor) :
    ∀ (stream : List Entry) (st st2 : Store × Bool),
      processEntries cfg W r normalize st stream = .ok st2 →
      st2.2 = (st.2 || stream.any (fun e => e.name == "lm_head.weight")) := by
  intro stream
  induction stream with
  | nil =>
    intro st st2 h
    simp only [processEntries, Except.ok.injEq] at h
    rw [← h]
    simp
  | cons e rest ih =>
    intro st st2 h
    simp only [processEntries] at h
    cases hE : loadEntry cfg W r normalize st e with
    | error err => rw [hE] at h; simp at h
    | ok stm =>
      rw [hE] at h
      dsimp only at h
      have h1 := loadEntry_flag cfg W r normalize st stm e hE
      have h2 := ih stm st2 h
      rw [h2, h1, List.any_cons, Bool.or_assoc]

/-- C8: an entry whose name contains `"rotary_emb.inv_freq"` is discarded
unconditionally by the `continue` at line 321: the loop iteration writes
nothing, leaving the parameter store (and the `has_norm_head` flag)
exactly as they were. -/
theorem inv_freq_skip_frame (cfg : Config) (W r : Nat)
    (normalize : Tensor → Tensor) (st : Store × Bool) (e : Entry)
    (h : strContains "rotary_emb.inv_freq" e.name = true) :
    loadEntry cfg W r normalize st e = .ok st := by
  simp [loadEntry, h]

/-- Closed witness for `inv_freq_skip_frame` on a rotary-frequency entry
of layer 0. -/
theorem inv_freq_skip_frame_witness :
    strContains "rotary_emb.inv_freq"
      "model.layers.0.self_attn.rotary_emb.inv_freq" = true ∧
    loadEntry ⟨4, 32⟩ 2 0 (fun t => t)
      ([("lm_head.weight", ⟨DType.float16, Device.cpu, [[1]]⟩)], false)
      ⟨"model.layers.0.self_attn.rotary_emb.inv_freq",
        ⟨DType.float16, Device.cpu, [[1]]⟩⟩ =
      .ok ([("lm_head.weight", ⟨DType.float16, Device.cpu, [[1]]⟩)], false) :=
  ⟨by decide, inv_freq_skip_frame _ _ _ _ _ _ (by decide)⟩

/-- C3: provided the per-entry processing of the stream runs to completion,
`load_weights` fails with the missing-mandatory-step error (the
`assert has_norm_head` at line 383) if and only if no entry of the stream
is named `"lm_head.weight"`; in particular a stream containing that entry
exactly once does not produce this error. -/
theorem missing_norm_head_iff (cfg : Config) (W r : Nat)
    (normalize : Tensor → Tensor) (sd : Store) (stream : List Entry)
    (st : Store × Bool)
    (h : processEntries cfg W r normalize (sd, false) stream = .ok st) :
    (load_weights cfg W r normalize sd stream = .error .missingNormHead ↔
      ∀ e ∈ stream, e.name ≠ "lm_head.weight") := by
  obtain ⟨sd2, flag⟩ := st
  have hflag := processEntries_flag cfg W r normalize stream (sd, false)
    (sd2, flag) h
  simp only [Bool.false_or] at hflag
  have hlw : load_weights cfg W r normalize sd stream =
      (if flag then .ok sd2 else .error .missingNormHead) := by
    simp only [load_weights, h]
  rw [hlw]
  cases hany : stream.any (fun e => e.name == "lm_head.weight") with
  | false =>
    rw [hflag, hany, if_neg (show ¬(false = true) from by decide)]
    rw [List.any_eq_false] at hany
    constructor
    · intro _ e he
      have := hany e he
      simpa using this
    · intro _
      rfl
  | true =>
    rw [hflag, hany, if_pos rfl]
    rw [List.any_eq_true] at hany
    obtain ⟨e, he, hb⟩ := hany
    simp only [beq_iff_eq] at hb
    constructor
    · intro h'
      exact Except.noConfusion h'
    · intro hall
      exact absurd hb (hall e he)

/-- Closed witness for `missing_norm_head_iff` on a one-entry stream
containing `lm_head.weight` exactly once (3-row checkpoint head, 2-row
padded per-rank destination). -/
theorem missing_norm_head_iff_witness :
    processEntries ⟨4, 32⟩ 1 0 (fun t => t)
        ([("lm_head.weight", ⟨DType.float16, Device.cpu, [[1], [2]]⟩)], false)
        [⟨"lm_head.weight", ⟨DType.float32, Device.cpu, [[3], [4], [5]]⟩⟩] =
      .ok ([("lm_head.weight", ⟨DType.float16, Device.cpu, [[3], [4]]⟩)],
        true) ∧
    (load_weights ⟨4, 32⟩ 1 0 (fun t => t)
        [("lm_head.weight", ⟨DType.float16, Device.cpu, [[1], [2]]⟩)]
        [⟨"lm_head.weight", ⟨DType.float32, Device.cpu, [[3], [4], [5]]⟩⟩] =
        .error .missingNormHead ↔
      ∀ e ∈ [(⟨"lm_head.weight",
          ⟨DType.float32, Device.cpu, [[3], [4], [5]]⟩⟩ : Entry)],
        e.name ≠ "lm_head.weight") :=
  ⟨by rfl, missing_norm_head_iff _ _ _ _ _ _ _ (by rfl)⟩

/-- C5 counterexample: the claim asserts elevated-precision normalization
whenever the source element type is float16, but line 361 additionally
requires the tensor to reside on the cpu device: for a float16 tensor on
the cuda device the code hands the tensor to the normalization at its
source precision instead of routing it through float32 and casting
back. -/
theorem lm_head_elevated_precision_cex :
    lmHeadStep probeNormalize ⟨DType.float16, Device.cuda, [[3]]⟩ ≠
      castHalf (probeNormalize
        (castFloat ⟨DType.float16, Device.cuda, [[3]]⟩)) := by
  decide

/-- C5 amended: for every `lm_head.weight` entry (destination present in
the store) the loader applies the row normalization to the loaded tensor
and only then hands the result to the vocabulary sharding write — i.e.
normalization happens before any sharding; the recorded
`torch.nn.functional.normalize` call uses the L2 norm (`p = 2`) along the
row dimension (`dim = 1`) with the denominator clamped to at least
`eps = 1e-12 > 0`; and the normalization is computed in elevated (float32)
precision with a cast back to float16 exactly when the loaded tensor is
float16 AND resides on the cpu device — otherwise it is computed at the
source precision. -/
theorem lm_head_normalization_amended (cfg : Config) (W r : Nat)
    (normalize : Tensor → Tensor) (t : Tensor) (sd : Store) (flag : Bool)
    (param : Tensor)
    (hlook : lookupStore sd "lm_head.weight" = some param) :
    (t.dtype = DType.float16 ∧ t.device = Device.cpu →
      lmHeadStep normalize t = castHalf (normalize (castFloat t))) ∧
    (¬(t.dtype = DType.float16 ∧ t.device = Device.cpu) →
      lmHeadStep normalize t = normalize t) ∧
    (fNormalizeDefaults.p = 2 ∧ fNormalizeDefaults.dim = 1 ∧
      0 < fNormalizeDefaults.eps) ∧
    loadEntry cfg W r normalize (sd, flag) ⟨"lm_head.weight", t⟩ =
      .ok (updateStore sd "lm_head.weight"
        { param with
          data := load_padded_tensor_parallel_vocab param.data
            (lmHeadStep normalize t).data r }, true) := by
  refine ⟨fun hyp => by rw [lmHeadStep, if_pos hyp],
    fun hyp => by rw [lmHeadStep, if_neg hyp],
    ⟨rfl, rfl, by norm_num [fNormalizeDefaults]⟩, ?_⟩
  simp only [loadEntry,
    show strContains "rotary_emb.inv_freq" "lm_head.weight" = false from by
      decide,
    show strContains "W_pack" "lm_head.weight" = false from by decide,
    show strContains "gate_proj" "lm_head.weight" = false from by decide,
    show strContains "up_proj" "lm_head.weight" = false from by decide,
    show strContains "embed_tokens" "lm_head.weight" = false from by decide,
    show strContains "lm_head" "lm_head.weight" = true from by decide,
    Bool.false_eq_true, if_false, if_true, Bool.false_or, Bool.or_true]
  rw [hlook]
  simp

/-- Closed witness for `lm_head_normalization_amended` at a float16 cpu
tensor and the probe normalization. -/
theorem lm_head_normalization_amended_witness :
    lookupStore
        [("lm_head.weight", ⟨DType.float16, Device.cpu, [[1], [2]]⟩)]
        "lm_head.weight" =
      some ⟨DType.float16, Device.cpu, [[1], [2]]⟩ ∧
    (((⟨DType.float16, Device.cpu, [[3], [4]]⟩ : Tensor).dtype =
          DType.float16 ∧
        (⟨DType.float16, Device.cpu, [[3], [4]]⟩ : Tensor).device =
          Device.cpu →
      lmHeadStep probeNormalize ⟨DType.float16, Device.cpu, [[3], [4]]⟩ =
        castHalf (probeNormalize
          (castFloat ⟨DType.float16, Device.cpu, [[3], [4]]⟩))) ∧
      (¬((⟨DType.float16, Device.cpu, [[3], [4]]⟩ : Tensor).dtype =
            DType.float16 ∧
          (⟨DType.float16, Device.cpu, [[3], [4]]⟩ : Tensor).device =
            Device.cpu) →
        lmHeadStep probeNormalize ⟨DType.float16, Device.cpu, [[3], [4]]⟩ =
          probeNormalize ⟨DType.float16, Device.cpu, [[3], [4]]⟩) ∧
      (fNormalizeDefaults.p = 2 ∧ fNormalizeDefaults.dim = 1 ∧
        0 < fNormalizeDefaults.eps) ∧
      loadEntry ⟨4, 32⟩ 2 0 probeNormalize
          ([("lm_head.weight", ⟨DType.float16, Device.cpu, [[1], [2]]⟩)],
            false)
          ⟨"lm_head.weight", ⟨DType.float16, Device.cpu, [[3], [4]]⟩⟩ =
        .ok (updateStore
          [("lm_head.weight", ⟨DType.float16, Device.cpu, [[1], [2]]⟩)]
          "lm_head.weight"
          { (⟨DType.float16, Device.cpu, [[1], [2]]⟩ : Tensor) with
            data := load_padded_tensor_parallel_vocab [[1], [2]]
              (lmHeadStep probeNormalize
                ⟨DType.float16, Device.cpu, [[3], [4]]⟩).data 0 }, true)) :=
  ⟨by rfl,
    lm_head_normalization_amended ⟨4, 32⟩ 2 0 probeNormalize
      ⟨DType.float16, Device.cpu, [[3], [4]]⟩
      [("lm_head.weight", ⟨DType.float16, Device.cpu, [[1], [2]]⟩)] false
      ⟨DType.float16, Device.cpu, [[1], [2]]⟩ (by rfl)⟩

/-- Closed witness for `mlp_activation_guard` at activation `"gelu"`. -/
theorem mlp_activation_guard_witness :
    ("gelu" ≠ "silu" →
      mlpInit 16 4 "gelu" =
        .error ("Unsupported activation: " ++ "gelu" ++
          ". Only silu is supported for now.")) ∧
    (mlpInit 16 4 "silu" = .ok ⟨(16, 8), (4, 16)⟩) :=
  mlp_activation_guard 16 4 "gelu"
